import Mathlib

/-!
Verification of the multi-agent publication reviewer (rt-aaidc-project2-multiagent).

This file shallowly embeds the orchestration core of the repository:

* `src/tools.py`: `validate_repo_url`, `sanitize_text`, `safe_call`,
  `fetch_readme_via_api`, `fetch_repo_readme`;
* `src/app.py`: `_run_review_core` and `run_review_workflow`.

Python strings are modelled as Lean `String` (operated on through their
underlying `List Char`), Python exceptions as `Except`, the network as an
oracle `String → Option (Nat × String)` (request URL to optional
status/body; `none` models a raised exception), and wall-clock sleeping as
an accumulated rational delay.

The four LLM stage functions and the pipeline state container are imported
by `src/app.py` but their implementations are not present in the source
tree (`agents.py`/`state.py` define divergent, incompatible versions);
they are modelled from the spec where indicated below.
-/

namespace MAS

/-- Python whitespace (the ASCII characters matched by `str.strip()` and
by the regex class used in `re.sub(r"\s+", " ", ...)`). -/
def pyIsSpace (c : Char) : Bool :=
  c = ' ' || c = '\t' || c = '\n' || c = '\r' || c = '\x0b' || c = '\x0c'

/-- Python `str.lstrip()` on the character list. -/
def pyStripL (l : List Char) : List Char := l.dropWhile pyIsSpace

/-- Python `str.rstrip()` on the character list. -/
def pyStripR (l : List Char) : List Char := (l.reverse.dropWhile pyIsSpace).reverse

/-- Python `str.strip()` on the character list. -/
def pyStripList (l : List Char) : List Char := pyStripL (pyStripR l)

/-- Python `str.strip()`. -/
def pyStrip (s : String) : String := ⟨pyStripList s.data⟩

/-- Python `str.split(sep)` for a one-character separator: splits on every
occurrence, keeping empty segments (`"a//b".split("/") == ["a", "", "b"]`,
`"".split("/") == [""]`). -/
def splitChar (sep : Char) : List Char → List (List Char)
  | [] => [[]]
  | c :: rest =>
    if c = sep then [] :: splitChar sep rest
    else
      match splitChar sep rest with
      | [] => [[c]]
      | p :: ps => (c :: p) :: ps

/-- Python `str.rstrip("/")` on the character list. -/
def rstripSlash (l : List Char) : List Char := (l.reverse.dropWhile (· = '/')).reverse

/-- The effect of `re.sub(r"\s+", " ", text)`: every maximal run of
whitespace characters is replaced by one space. -/
def collapseWs : List Char → List Char
  | [] => []
  | [c] => if pyIsSpace c then [' '] else [c]
  | c :: d :: rest =>
    if pyIsSpace c && pyIsSpace d then collapseWs (d :: rest)
    else (if pyIsSpace c then ' ' else c) :: collapseWs (d :: rest)

/-- Python slice `l[:k]` with a possibly negative bound `k`
(`l[:-m]` keeps all but the last `m` elements, clamping at empty). -/
def pySliceTo (l : List Char) (k : Int) : List Char :=
  if 0 ≤ k then l.take k.toNat else l.take (l.length - (-k).toNat)

/-- Embeds `tools.validate_repo_url`.  The source checks Python truthiness
of `url`, strips it, then matches the regex
`^https://github\.com/[^/]+/[^/]+/?$` with `re.match`; the regex is
translated structurally: the stripped string must start with the literal
19-character prefix and the remainder must split on `/` into exactly two
nonempty slash-free segments, optionally followed by one trailing `/`. -/
def validate_repo_url (url : String) : Bool :=
  if url = "" then false
  else
    let u := pyStripList url.data
    if "https://github.com/".data.isPrefixOf u then
      match splitChar '/' (u.drop 19) with
      | [owner, repo] => !owner.isEmpty && !repo.isEmpty
      | [owner, repo, t] => !owner.isEmpty && !repo.isEmpty && t.isEmpty
      | _ => false
    else false

/-- Embeds `tools.sanitize_text`: empty input is returned as is; otherwise
the text is stripped, whitespace runs are collapsed, and if the result is
longer than `max_len` it is cut to `max_len - 3` characters (a Python
slice, so negative for `max_len < 3`) with `"..."` appended. -/
def sanitize_text (text : String) (max_len : Nat := 4000) : String :=
  if text = "" then ""
  else
    let t := collapseWs (pyStripList text.data)
    if max_len < t.length then ⟨pySliceTo t ((max_len : Int) - 3) ++ "...".data⟩
    else ⟨t⟩

/-- Spec-side characterisation used to state the whitespace-collapse
property of `sanitize_text`: the maximal whitespace-free chunks of the
input, in order (`acc` holds the reversed chunk being read). -/
def wordsAux (acc : List Char) : List Char → List (List Char)
  | [] => if acc.isEmpty then [] else [acc.reverse]
  | c :: rest =>
    if pyIsSpace c then
      if acc.isEmpty then wordsAux [] rest else acc.reverse :: wordsAux [] rest
    else wordsAux (c :: acc) rest

/-- Spec-side list of maximal whitespace-free chunks of a string. -/
def wordsOf (l : List Char) : List (List Char) := wordsAux [] l

/-- Spec-side join of chunks with single spaces. -/
def joinWords : List (List Char) → List Char
  | [] => []
  | [w] => w
  | w :: ws => w ++ ' ' :: joinWords ws

/-- Whether a list starts with a whitespace character. -/
def headWs : List Char → Bool
  | [] => false
  | c :: _ => pyIsSpace c

/-- Embeds `tools.safe_call` as a recursion over remaining tries.  The
wrapped operation is modelled as a function of the (0-based) invocation
index, returning `Except`.  The loop body models
`try: return func(...) except: last_err = e; time.sleep(delay); delay *= 2`;
the returned triple is (outcome, total slept delay, number of
invocations), and the terminal `raise last_err` is `Except.error lastErr`
(`none` for the unreachable `tries = 0` start, where Python would raise
`None`). -/
def safeCallGo (f : Nat → Except E A) :
    Nat → Nat → ℚ → ℚ → Option E → Except (Option E) A × ℚ × Nat
  | 0, calls, _, slept, lastErr => (.error lastErr, slept, calls)
  | n + 1, calls, delay, slept, _ =>
    match f calls with
    | .ok a => (.ok a, slept, calls + 1)
    | .error e => safeCallGo f n (calls + 1) (2 * delay) (slept + delay) (some e)

/-- Embeds `tools.safe_call(func, *args, tries, base_delay)`. -/
def safe_call (f : Nat → Except E A) (tries : Nat) (base_delay : ℚ) :
    Except (Option E) A × ℚ × Nat :=
  safeCallGo f tries 0 base_delay 0 none

/-- Python `repo.replace(".git", "")`: deletes every (left-to-right,
non-overlapping) occurrence of `.git`. -/
def removeGit : List Char → List Char
  | '.' :: 'g' :: 'i' :: 't' :: rest => removeGit rest
  | c :: rest => c :: removeGit rest
  | [] => []

/-- Embeds the URL parsing at the top of `tools.fetch_readme_via_api`:
`parts = repo_url.rstrip("/").split("/"); owner = parts[-2];
repo = parts[-1].replace(".git", "")`, with the `IndexError` raised when
fewer than two segments exist caught as `none`. -/
def parseOwnerRepo (repo_url : String) : Option (String × String) :=
  match (splitChar '/' (rstripSlash repo_url.data)).reverse with
  | last :: prev :: _ => some (⟨prev⟩, ⟨removeGit last⟩)
  | _ => none

/-- The `GITHUB_API_README` URL template instantiated at owner/repo. -/
def apiUrlOf (owner repo : String) : String :=
  "https://api.github.com/repos/" ++ owner ++ "/" ++ repo ++ "/readme"

/-- The `RAW_README` URL template instantiated at owner/repo/branch. -/
def rawUrlOf (owner repo branch : String) : String :=
  "https://raw.githubusercontent.com/" ++ owner ++ "/" ++ repo ++ "/" ++ branch ++ "/README.md"

/-- One HTTP attempt in `fetch_readme_via_api`: the oracle `net` maps a
request URL to `none` (a raised exception) or `some (status, body)`; the
attempt yields the body exactly when the status is 200 and the body is
not blank (`resp.status_code == 200 and resp.text.strip()`). -/
def tryUrl (net : String → Option (Nat × String)) (url : String) : Option String :=
  match net url with
  | some (status, body) => if status = 200 ∧ pyStrip body ≠ "" then some body else none
  | none => none

/-- Embeds `tools.fetch_readme_via_api`, instrumented with the list of
URLs requested, in order.  The `for branch in ("main", "master")`
fallback loop is unrolled into its two fixed iterations. -/
def fetch_readme_via_api (net : String → Option (Nat × String)) (repo_url : String) :
    Option String × List String :=
  match parseOwnerRepo repo_url with
  | none => (none, [])
  | some (owner, repo) =>
    let api := apiUrlOf owner repo
    let rawMain := rawUrlOf owner repo "main"
    let rawMaster := rawUrlOf owner repo "master"
    match tryUrl net api with
    | some t => (some t, [api])
    | none =>
      match tryUrl net rawMain with
      | some t => (some t, [api, rawMain])
      | none =>
        match tryUrl net rawMaster with
        | some t => (some t, [api, rawMain, rawMaster])
        | none => (none, [api, rawMain, rawMaster])

/-- The two user-facing error kinds of `tools.fetch_repo_readme`:
`ValueError` for an invalid URL, `RuntimeError` for unavailable/empty
content. -/
inductive FetchError where
  | invalidUrl (msg : String)
  | contentUnavailable (msg : String)
deriving DecidableEq, Repr

/-- Whether a fetch error is the content-unavailable kind (Python
`RuntimeError`) rather than the invalid-URL kind (`ValueError`). -/
def isContentUnavailable : FetchError → Bool
  | .contentUnavailable _ => true
  | .invalidUrl _ => false

/-- Embeds `tools.fetch_repo_readme`, instrumented with the requested
URLs.  The source wraps `fetch_readme_via_api` in
`safe_call(..., tries=3, base_delay=1.0)`; since `fetch_readme_via_api`
returns `None` on failure instead of raising, the wrapper invokes it once
and passes its value through (`safeCall_of_ok` below ties this to the
`safe_call` embedding), so the call is modelled directly. -/
def fetch_repo_readme (net : String → Option (Nat × String)) (repo_url : String) :
    Except FetchError String × List String :=
  if validate_repo_url repo_url = false then
    (.error (.invalidUrl "Invalid GitHub repo URL. Expected https://github.com/owner/repo"), [])
  else
    match fetch_readme_via_api net repo_url with
    | (none, reqs) =>
      (.error (.contentUnavailable "README content is empty or could not be retrieved."), reqs)
    | (some c, reqs) =>
      if pyStrip c = "" then
        (.error (.contentUnavailable "README content is empty or could not be retrieved."), reqs)
      else (.ok (pyStrip c), reqs)

/-- A primitive Python value appearing inside a stage-result mapping or a
result dictionary: a string, a list of strings, a boolean, or `None`. -/
inductive Prim where
  | pStr (s : String)
  | pList (l : List String)
  | pBool (b : Bool)
  | pNone
deriving DecidableEq, Repr

/-- A value stored in the pipeline state: a primitive or a stage-result
mapping (spec section 3: "strings, ordered sequences of strings, or
nested mappings"). -/
inductive Value where
  | vStr (s : String)
  | vList (l : List String)
  | vBool (b : Bool)
  | vNone
  | vDict (d : List (String × Prim))
deriving DecidableEq, Repr

/-- Modelled from the spec: the pipeline state container (`MASState` with
`state.set`/`state.to_dict` as used by `src/app.py`; its implementation
is absent from the source tree — `state.py` declares an incompatible
`TypedDict`).  The spec (section 3) fixes it as an insertion-ordered
mapping, so `set` updates an existing key in place and appends a new key
at the end, exactly like a Python `dict` assignment. -/
def setKey : List (String × Value) → String → Value → List (String × Value)
  | [], k, v => [(k, v)]
  | (k', v') :: rest, k, v =>
    if k' = k then (k, v) :: rest else (k', v') :: setKey rest k v

/-- Python `dict` assignment on a stage-result mapping (used by the
checkpoint-3 edit: `improvements["suggested_intro"] = edited`). -/
def setKeyP : List (String × Prim) → String → Prim → List (String × Prim)
  | [], k, v => [(k, v)]
  | (k', v') :: rest, k, v =>
    if k' = k then (k, v) :: rest else (k', v') :: setKeyP rest k v

/-- Key lookup on the state mapping (Python `dict` indexing / `get`). -/
def lookupKey : List (String × Value) → String → Option Value
  | [], _ => none
  | (k', v) :: rest, k => if k' = k then some v else lookupKey rest k

/-- Key lookup on a primitive mapping. -/
def lookupKeyP : List (String × Prim) → String → Option Prim
  | [], _ => none
  | (k', v) :: rest, k => if k' = k then some v else lookupKeyP rest k

/-- Python `f"{v}"` rendering of a primitive value (strings verbatim,
`True`/`False`/`None`, and the `repr` of a string list). -/
def primToStr : Prim → String
  | .pStr s => s
  | .pBool b => if b then "True" else "False"
  | .pNone => "None"
  | .pList l => "[" ++ String.intercalate ", " (l.map fun x => "'" ++ x ++ "'") ++ "]"

/-- A rendering of one state value for the serialized state dump
(modelling `json.dumps(state.to_dict(), indent=2)`; the exact layout is
irrelevant to every claim, only the written files themselves matter). -/
def jsonOfPrim : Prim → String
  | .pStr s => "\x22" ++ s ++ "\x22"
  | .pBool b => if b then "true" else "false"
  | .pNone => "null"
  | .pList l => "[" ++ String.intercalate ", " (l.map fun x => "\x22" ++ x ++ "\x22") ++ "]"

/-- JSON-style rendering of a state value. -/
def jsonOfValue : Value → String
  | .vStr s => "\x22" ++ s ++ "\x22"
  | .vBool b => if b then "true" else "false"
  | .vNone => "null"
  | .vList l => "[" ++ String.intercalate ", " (l.map fun x => "\x22" ++ x ++ "\x22") ++ "]"
  | .vDict d =>
    "\x7b" ++ String.intercalate ", " (d.map fun kv => "\x22" ++ kv.1 ++ "\x22: " ++ jsonOfPrim kv.2) ++ "\x7d"

/-- JSON-style rendering of the whole state mapping. -/
def jsonOfState (st : List (String × Value)) : String :=
  "\x7b" ++ String.intercalate ", " (st.map fun kv => "\x22" ++ kv.1 ++ "\x22: " ++ jsonOfValue kv.2) ++ "\x7d"

/-- A human answer at one interactive checkpoint (`ask_human_choice` loops
until one of these is entered; `edit` carries the text subsequently
collected by `get_multiline_input`, which returns it already stripped). -/
inductive Decision where
  | yes
  | no
  | edit (text : String)
deriving DecidableEq, Repr

/-- The resolved effect of one checkpoint: abort the pipeline, or proceed
(with the replacement text when a non-empty edit was supplied). -/
inductive CkOutcome where
  | stop
  | go (edited : Option String)
deriving DecidableEq, Repr

/-- Checkpoint resolution in `_run_review_core`: in non-interactive mode
the checkpoint is skipped; interactively, `no` aborts, `edit` substitutes
the collected text when it is non-empty (`if edited:`), and `yes`
proceeds unchanged. -/
def ckDecision (interactive : Bool) (d : Decision) : CkOutcome :=
  if interactive then
    match d with
    | .yes => .go none
    | .no => .stop
    | .edit t => .go (if t = "" then none else some t)
  else .go none

/-- Modelled from the spec: the four stage functions
(`repo_analyzer`, `tag_recommender`, `content_improver`, `reviewer`)
imported by `src/app.py`; their implementations are absent from the
source tree (`agents.py` defines divergent `agent_*` functions that the
orchestrator does not use).  Per spec section 4.3 each is a black-box
transformation returning a mapping with stage-specific keys, and the
reviewer consumes the full accumulated state; they are therefore carried
as unconstrained function parameters of the embedding. -/
structure Agents where
  repo_analyzer : String → List (String × Prim)
  tag_recommender : String → List (String × Prim)
  content_improver : String → List (String × Prim)
  reviewer : List (String × Value) → List (String × Prim)

/-- The observable outcome of one `_run_review_core` run: the returned
result dictionary, the output files written (path and content, in write
order), the state mapping handed to the reviewer stage (`none` when the
run never reached it), and the final pipeline state. -/
structure RunOutput where
  result : List (String × Prim)
  files : List (String × String)
  reviewerArg : Option (List (String × Value))
  finalState : List (String × Value)
deriving DecidableEq, Repr

/-- The result dictionary returned when fetching the README raises. -/
def fetchErrorResult (e : String) : RunOutput :=
  ⟨[("error", .pStr ("Error fetching README: " ++ e)),
    ("recommendations_path", .pNone), ("report", .pStr ""),
    ("report_path", .pNone), ("keywords", .pList [])], [], none, []⟩

/-- The result dictionary returned when the fetched README is blank. -/
def emptyReadmeResult : RunOutput :=
  ⟨[("error", .pStr "README content is empty or could not be retrieved."),
    ("recommendations_path", .pNone), ("report", .pStr ""),
    ("report_path", .pNone), ("keywords", .pList [])], [], none, []⟩

/-- The result dictionary returned when the user aborts at a checkpoint
(`{"final_recommendations": "", "keywords": keywords}`). -/
def abortResult (keywords : List String) (st : List (String × Value)) : RunOutput :=
  ⟨[("final_recommendations", .pStr ""), ("keywords", .pList keywords)], [], none, st⟩

/-- `keywords = tags_out.get("tags", [])` (the tag stage's contract makes
this a list of strings; any other shape defaults to `[]`). -/
def getTags (d : List (String × Prim)) : List String :=
  match lookupKeyP d "tags" with
  | some (.pList l) => l
  | _ => []

/-- The tail of `_run_review_core` after the third checkpoint: store the
human feedback in the state when truthy, synthesize the final report via
the reviewer, append the labelled feedback section when truthy, write the
two timestamped output files, and return the result dictionary. -/
def finishRun (ag : Agents) (human_feedback ts : String) (keywords : List String)
    (st : List (String × Value)) : RunOutput :=
  let st := if human_feedback ≠ "" then setKey st "human_feedback" (.vStr human_feedback) else st
  let report_out := ag.reviewer st
  let base :=
    match lookupKeyP report_out "report" with
    | some p => primToStr p
    | none => "No report produced."
  let report_text :=
    if human_feedback ≠ "" then base ++ "\n\n[Human feedback]\n" ++ human_feedback else base
  let recPath := "outputs/recommendations_" ++ ts ++ ".txt"
  let rptPath := "outputs/report_" ++ ts ++ ".txt"
  ⟨[("final_recommendations", .pStr report_text),
    ("recommendations_path", .pStr recPath),
    ("report", .pStr report_text),
    ("report_path", .pStr rptPath),
    ("keywords", .pList keywords)],
   [(recPath, "Recommendations (auto-generated state)\n\n" ++ jsonOfState st),
    (rptPath, report_text)],
   some st, st⟩

/-- Embeds `app._run_review_core`.  `fetch` is the outcome of
`tools.safe_call(tools.fetch_repo_readme, repo_url, tries=3, base_delay=1.0)`
(`Except.error e` models a raised exception rendered as `{e}` in the error
message), `d1 d2 d3` are the human answers at the three checkpoints
(ignored when `interactive` is false), and `ts` is the run timestamp. -/
def runReviewCore (fetch : Except String String) (human_feedback : String)
    (interactive : Bool) (d1 d2 d3 : Decision) (ag : Agents) (ts : String) : RunOutput :=
  match fetch with
  | .error e => fetchErrorResult e
  | .ok readme =>
    if pyStrip readme = "" then emptyReadmeResult
    else
      let st := setKey [] "readme_raw" (.vStr readme)
      let st := setKey st "analyzer" (.vDict (ag.repo_analyzer readme))
      match ckDecision interactive d1 with
      | .stop => abortResult [] st
      | .go ed1 =>
        let readme := ed1.getD readme
        let st :=
          match ed1 with
          | some t =>
            setKey (setKey st "readme_edited_stage1" (.vBool true)) "readme_after_analyzer_edit" (.vStr t)
          | none => st
        let tags_out := ag.tag_recommender readme
        let st := setKey st "tags" (.vDict tags_out)
        let keywords := getTags tags_out
        match ckDecision interactive d2 with
        | .stop => abortResult keywords st
        | .go ed2 =>
          let readme := ed2.getD readme
          let st :=
            match ed2 with
            | some t =>
              setKey (setKey st "readme_edited_stage2" (.vBool true)) "readme_after_tags_edit" (.vStr t)
            | none => st
          let improvements := ag.content_improver readme
          let st := setKey st "improvements" (.vDict improvements)
          match ckDecision interactive d3 with
          | .stop => abortResult keywords st
          | .go ed3 =>
            match ed3 with
            | some t =>
              let improvements := setKeyP improvements "suggested_intro" (.pStr t)
              let st := setKey st "improvements" (.vDict improvements)
              let st := setKey st "intro_edited_stage3" (.vBool true)
              finishRun ag human_feedback ts keywords st
            | none => finishRun ag human_feedback ts keywords st

/-- Embeds `app.run_review_workflow`: the programmatic entry point, a thin
wrapper that always runs the core non-interactively (the checkpoint
answers are never read; `.yes` stands in for the unread arguments). -/
def run_review_workflow (fetch : Except String String) (human_feedback : String)
    (ag : Agents) (ts : String) : RunOutput :=
  runReviewCore fetch human_feedback false .yes .yes .yes ag ts

/-- Concrete stage oracles used by witnesses and counterexamples. -/
def demoAgents : Agents where
  repo_analyzer := fun _ => [("summary", .pStr "s"), ("suggestions", .pList [])]
  tag_recommender := fun _ => [("tags", .pList ["t1"])]
  content_improver := fun _ => [("suggested_title", .pStr "T"), ("suggested_intro", .pStr "I")]
  reviewer := fun _ => [("report", .pStr "R")]

/-- Concrete operation for the retry-wrapper witness: fails on the first
two attempts, then succeeds. -/
def failTwiceOp : Nat → Except String Nat :=
  fun i => if i = 0 then .error "e0" else if i = 1 then .error "e1" else .ok 42

/-- Concrete operation for the retry-wrapper witness: always fails. -/
def alwaysFailOp : Nat → Except String Nat :=
  fun i => if i = 0 then .error "e0" else .error "e1"

/-- The error raised by attempt `i` of the two concrete operations. -/
def demoErrs : Nat → String := fun i => if i = 0 then "e0" else "e1"

/-- Concrete network oracle for the fetch witnesses: the API channel
returns 404, the raw `main` channel succeeds. -/
def demoNet : String → Option (Nat × String) :=
  fun u =>
    if u = apiUrlOf "o" "r" then some (404, "")
    else if u = rawUrlOf "o" "r" "main" then some (200, "body") else none

/-- The LLM-facing state passed to the reviewer stage: the accumulated
state, with the human feedback stored under `human_feedback` when truthy
(`if human_feedback: state.set("human_feedback", human_feedback)` runs
before `reviewer(state.to_dict())`). -/
def reviewerState (human_feedback : String) (st : List (String × Value)) :
    List (String × Value) :=
  if human_feedback ≠ "" then setKey st "human_feedback" (.vStr human_feedback) else st

/-- The reviewer-derived report text:
`report_out.get("report", "No report produced.")` rendered as a string. -/
def reviewerReport (ag : Agents) (st' : List (String × Value)) : String :=
  match lookupKeyP (ag.reviewer st') "report" with
  | some p => primToStr p
  | none => "No report produced."

/-- The final report text of a completed run: the reviewer-derived text,
with the labelled human-feedback section appended when the feedback is
truthy. -/
def reportTextOf (ag : Agents) (human_feedback : String) (st : List (String × Value)) :
    String :=
  if human_feedback ≠ "" then
    reviewerReport ag (reviewerState human_feedback st) ++ "\n\n[Human feedback]\n" ++
      human_feedback
  else reviewerReport ag (reviewerState human_feedback st)

/-- Run of `safe_call` after `j` failed attempts: if every attempt from
`calls` on up to the `m`-th fails and attempt `calls + m` succeeds within
the remaining budget, the loop returns the success value, having slept the
doubling delays of the `m` intervening failures. -/
theorem safeCallGo_ok {E A : Type} (f : Nat → Except E A) (es : Nat → E) (a : A) :
    ∀ (m n calls : Nat) (delay slept : ℚ) (le : Option E),
      (∀ i, i < m → f (calls + i) = .error (es (calls + i))) →
      f (calls + m) = .ok a → m < n →
      safeCallGo f n calls delay slept le =
        (.ok a, slept + ∑ i in Finset.range m, (2 : ℚ) ^ i * delay, calls + m + 1) := by
  intro m
  induction m with
  | zero =>
    intro n calls delay slept le _ hok hlt
    cases n with
    | zero => exact absurd hlt (by omega)
    | succ n =>
      simp only [safeCallGo]
      rw [show calls + 0 = calls from rfl] at hok
      rw [hok]
      simp
  | succ m ih =>
    intro n calls delay slept le herr hok hlt
    cases n with
    | zero => exact absurd hlt (by omega)
    | succ n =>
      have h0 : f calls = .error (es calls) := by
        have := herr 0 (Nat.succ_pos m)
        simpa using this
      have step : safeCallGo f (n + 1) calls delay slept le =
          safeCallGo f n (calls + 1) (2 * delay) (slept + delay) (some (es calls)) := by
        simp only [safeCallGo, h0]
      rw [step]
      rw [ih n (calls + 1) (2 * delay) (slept + delay) (some (es calls))
            (fun i hi => by
              have := herr (i + 1) (by omega)
              rw [show calls + (i + 1) = calls + 1 + i by omega] at this
              exact this)
            (by rw [show calls + 1 + m = calls + (m + 1) by omega]; exact hok)
            (by omega)]
      have hc : ∀ i ∈ Finset.range m, (2 : ℚ) ^ i * (2 * delay) = 2 ^ (i + 1) * delay := by
        intro i _
        ring
      have hsum : slept + delay + ∑ i in Finset.range m, (2 : ℚ) ^ i * (2 * delay) =
          slept + ∑ i in Finset.range (m + 1), (2 : ℚ) ^ i * delay := by
        rw [Finset.sum_range_succ', Finset.sum_congr rfl hc]
        ring
      have hn : calls + 1 + m + 1 = calls + (m + 1) + 1 := by omega
      rw [hsum, hn]

/-- Run of `safe_call` when every attempt fails: the loop performs all
`n` remaining invocations, sleeps after each one, and ends carrying the
error of the last attempt. -/
theorem safeCallGo_err {E A : Type} (f : Nat → Except E A) (es : Nat → E)
    (hf : ∀ i, f i = .error (es i)) :
    ∀ (n calls : Nat) (delay slept : ℚ) (le : Option E),
      safeCallGo f n calls delay slept le =
        (.error (if n = 0 then le else some (es (calls + n - 1))),
         slept + ∑ i in Finset.range n, (2 : ℚ) ^ i * delay, calls + n) := by
  intro n
  induction n with
  | zero => intro calls delay slept le; simp [safeCallGo]
  | succ n ih =>
    intro calls delay slept le
    have step : safeCallGo f (n + 1) calls delay slept le =
        safeCallGo f n (calls + 1) (2 * delay) (slept + delay) (some (es calls)) := by
      simp only [safeCallGo, hf calls]
    rw [step]
    rw [ih (calls + 1) (2 * delay) (slept + delay) (some (es calls))]
    have herrc : (if n = 0 then (some (es calls) : Option E) else some (es (calls + 1 + n - 1))) =
        some (es (calls + (n + 1) - 1)) := by
      cases n with
      | zero => simp
      | succ n =>
        simp only [Nat.succ_ne_zero, if_false]
        congr 2
        omega
    have hc : ∀ i ∈ Finset.range n, (2 : ℚ) ^ i * (2 * delay) = 2 ^ (i + 1) * delay := by
      intro i _
      ring
    have hsum : slept + delay + ∑ i in Finset.range n, (2 : ℚ) ^ i * (2 * delay) =
        slept + ∑ i in Finset.range (n + 1), (2 : ℚ) ^ i * delay := by
      rw [Finset.sum_range_succ', Finset.sum_congr rfl hc]
      ring
    have hn : calls + 1 + n = calls + (n + 1) := by omega
    rw [herrc, hsum, hn]
    simp

/-- An operation that never fails passes straight through the retry
wrapper: one invocation, no sleeping (this is the situation of
`fetch_repo_readme`, whose wrapped `fetch_readme_via_api` returns `None`
instead of raising). -/
theorem safeCall_of_ok {E A : Type} (x : A) (tries : Nat) (b : ℚ) (h : 1 ≤ tries) :
    safe_call (fun _ => (.ok x : Except E A)) tries b = (.ok x, 0, 1) := by
  cases tries with
  | zero => exact absurd h (by omega)
  | succ n => simp [safe_call, safeCallGo]

/-- C3: for `safe_call` with `tries ≥ 1` and `base_delay > 0`: an
operation failing `k` times then succeeding (with `tries > k`) yields the
success value with total slept delay `base_delay + 2·base_delay + … +
2^(k-1)·base_delay`; an always-failing operation is invoked exactly
`tries` times and the error finally raised is the last attempt's error. -/
theorem c3_safe_call_retry {E A : Type} (f : Nat → Except E A) (es : Nat → E) (a : A)
    (tries k : Nat) (base_delay : ℚ) (htries : 1 ≤ tries) (hb : 0 < base_delay) :
    ((∀ i, i < k → f i = .error (es i)) → f k = .ok a → k < tries →
      safe_call f tries base_delay =
        (.ok a, ∑ i in Finset.range k, (2 : ℚ) ^ i * base_delay, k + 1)) ∧
    ((∀ i, f i = .error (es i)) →
      safe_call f tries base_delay =
        (.error (some (es (tries - 1))), ∑ i in Finset.range tries, (2 : ℚ) ^ i * base_delay,
         tries)) := by
  constructor
  · intro herr hok hlt
    have h := safeCallGo_ok f es a k tries 0 base_delay 0 none
      (fun i hi => by simpa using herr i hi) (by simpa using hok) hlt
    simpa [safe_call] using h
  · intro hf
    have h := safeCallGo_err f es hf tries 0 base_delay 0 none
    rw [safe_call, h]
    have hz : tries ≠ 0 := by omega
    simp [hz]

/-- C3 witness: `failTwiceOp` under `tries = 3`, `base_delay = 1` returns
`42` after sleeping `1 + 2 = 3`; `alwaysFailOp` is invoked 3 times and
raises the third attempt's error. -/
theorem c3_safe_call_retry_witness :
    safe_call failTwiceOp 3 1 = (.ok 42, 3, 3) ∧
    safe_call alwaysFailOp 3 1 = (.error (some "e1"), 7, 3) := by
  constructor
  · have h := (c3_safe_call_retry failTwiceOp demoErrs 42 3 2 1 (by norm_num) (by norm_num)).1
      (fun i hi => by interval_cases i <;> rfl) rfl (by norm_num)
    rw [h]
    norm_num [Finset.sum_range_succ]
  · have h := (c3_safe_call_retry alwaysFailOp demoErrs 42 3 0 1 (by norm_num) (by norm_num)).2
      (fun i => by cases i <;> rfl)
    rw [h]
    norm_num [Finset.sum_range_succ, demoErrs]

/-- C6: for every repository URL (one whose owner/repo segments parse),
README retrieval attempts the primary API channel first; only on its
failure or empty content does it try the raw URL for branch `main`, then
for branch `master`, in that order, returning the first non-empty success
without contacting any later channel (the instrumented request list shows
exactly the channels contacted, in order). -/
theorem c6_fetch_channel_order (net : String → Option (Nat × String))
    (url owner repo : String) (hparse : parseOwnerRepo url = some (owner, repo)) :
    (∀ t, tryUrl net (apiUrlOf owner repo) = some t →
      fetch_readme_via_api net url = (some t, [apiUrlOf owner repo])) ∧
    (tryUrl net (apiUrlOf owner repo) = none →
      ∀ t, tryUrl net (rawUrlOf owner repo "main") = some t →
        fetch_readme_via_api net url =
          (some t, [apiUrlOf owner repo, rawUrlOf owner repo "main"])) ∧
    (tryUrl net (apiUrlOf owner repo) = none →
      tryUrl net (rawUrlOf owner repo "main") = none →
      ∀ t, tryUrl net (rawUrlOf owner repo "master") = some t →
        fetch_readme_via_api net url =
          (some t, [apiUrlOf owner repo, rawUrlOf owner repo "main",
                    rawUrlOf owner repo "master"])) ∧
    (tryUrl net (apiUrlOf owner repo) = none →
      tryUrl net (rawUrlOf owner repo "main") = none →
      tryUrl net (rawUrlOf owner repo "master") = none →
      fetch_readme_via_api net url =
        (none, [apiUrlOf owner repo, rawUrlOf owner repo "main",
                rawUrlOf owner repo "master"])) := by
  refine ⟨?_, ?_, ?_, ?_⟩
  · intro t ht
    simp [fetch_readme_via_api, hparse, ht]
  · intro hapi t ht
    simp [fetch_readme_via_api, hparse, hapi, ht]
  · intro hapi hmain t ht
    simp [fetch_readme_via_api, hparse, hapi, hmain, ht]
  · intro hapi hmain hmaster
    simp [fetch_readme_via_api, hparse, hapi, hmain, hmaster]

/-- C6 witness: with a network oracle whose API channel answers 404 and
whose raw `main` channel answers 200 with a non-empty body, the fetch
returns that body having contacted exactly the API channel and then the
`main` raw channel. -/
theorem c6_fetch_channel_order_witness :
    fetch_readme_via_api demoNet "https://github.com/o/r" =
      (some "body", [apiUrlOf "o" "r", rawUrlOf "o" "r" "main"]) :=
  (c6_fetch_channel_order demoNet "https://github.com/o/r" "o" "r" (by decide)).2.1
    (by decide) "body" (by decide)

/-- C5: `fetch_repo_readme` rejects every URL failing `validate_repo_url`
with the invalid-URL error before any network request (the request log is
empty); for a valid URL, any failure it reports is the content-unavailable
kind, which is distinct from the invalid-URL kind. -/
theorem c5_fetch_error_kinds (net : String → Option (Nat × String)) (url : String) :
    (validate_repo_url url = false →
      fetch_repo_readme net url =
        (.error (.invalidUrl "Invalid GitHub repo URL. Expected https://github.com/owner/repo"),
         [])) ∧
    (validate_repo_url url = true →
      ∀ e, (fetch_repo_readme net url).1 = .error e → isContentUnavailable e = true) ∧
    (validate_repo_url url = true → (fetch_readme_via_api net url).1 = none →
      (fetch_repo_readme net url).1 =
        .error (.contentUnavailable "README content is empty or could not be retrieved.")) ∧
    (∀ m₁ m₂, FetchError.invalidUrl m₁ ≠ FetchError.contentUnavailable m₂) := by
  refine ⟨?_, ?_, ?_, ?_⟩
  · intro hv
    simp [fetch_repo_readme, hv]
  · intro hv e he
    simp only [fetch_repo_readme, hv] at he
    rcases hfa : fetch_readme_via_api net url with ⟨c, reqs⟩
    rw [hfa] at he
    cases c with
    | none =>
      simp at he
      rw [← he]
      rfl
    | some s =>
      by_cases hs : pyStrip s = ""
      · simp [hs] at he
        rw [← he]
        rfl
      · simp [hs] at he
  · intro hv hnone
    simp only [fetch_repo_readme, hv]
    rcases hfa : fetch_readme_via_api net url with ⟨c, reqs⟩
    rw [hfa] at hnone
    simp at hnone
    subst hnone
    simp [hfa]
  · intro m₁ m₂ h
    exact FetchError.noConfusion h

/-- C5 witness: a malformed URL is rejected with the invalid-URL error
and an empty request log; a valid URL whose every channel fails yields
the content-unavailable error kind. -/
theorem c5_fetch_error_kinds_witness :
    fetch_repo_readme demoNet "nope" =
      (.error (.invalidUrl "Invalid GitHub repo URL. Expected https://github.com/owner/repo"),
       []) ∧
    isContentUnavailable
      (.contentUnavailable "README content is empty or could not be retrieved.") = true ∧
    (fetch_repo_readme (fun _ => none) "https://github.com/a/b").1 =
      .error (.contentUnavailable "README content is empty or could not be retrieved.") :=
  ⟨(c5_fetch_error_kinds demoNet "nope").1 (by decide),
   (c5_fetch_error_kinds (fun _ => none) "https://github.com/a/b").2.1 (by decide) _ rfl,
   (c5_fetch_error_kinds (fun _ => none) "https://github.com/a/b").2.2.1 (by decide) rfl⟩

/-- A list is a Boolean prefix of itself followed by anything. -/
theorem isPrefixOf_append_self (l₁ l₂ : List Char) : l₁.isPrefixOf (l₁ ++ l₂) = true := by
  induction l₁ with
  | nil => simp [List.isPrefixOf]
  | cons c t ih => simp [List.isPrefixOf, ih]

/-- Splitting a list that does not contain the separator yields the list
as the single segment. -/
theorem splitChar_of_not_mem (sep : Char) (l : List Char) (h : sep ∉ l) :
    splitChar sep l = [l] := by
  induction l with
  | nil => rfl
  | cons c t ih =>
    have hc : ¬c = sep := fun hc => h (hc ▸ List.mem_cons_self c t)
    have ht : sep ∉ t := fun m => h (List.mem_cons_of_mem _ m)
    simp [splitChar, hc, ih ht]

/-- Splitting peels the first separator-free segment. -/
theorem splitChar_append (sep : Char) (a b : List Char) (h : sep ∉ a) :
    splitChar sep (a ++ sep :: b) = a :: splitChar sep b := by
  induction a with
  | nil => simp [splitChar]
  | cons c t ih =>
    have hc : ¬c = sep := fun hc => h (hc ▸ List.mem_cons_self c t)
    have ht : sep ∉ t := fun m => h (List.mem_cons_of_mem _ m)
    simp [splitChar, hc, ih ht]

/-- Left strip is the identity when the head is not whitespace. -/
theorem pyStripL_eq_self (l : List Char) (h : ∀ c, l.head? = some c → pyIsSpace c = false) :
    pyStripL l = l := by
  cases l with
  | nil => rfl
  | cons c t => simp [pyStripL, List.dropWhile_cons, h c rfl]

/-- Right strip is the identity when the last element is not whitespace. -/
theorem pyStripR_eq_self (l : List Char) (h : ∀ c, l.getLast? = some c → pyIsSpace c = false) :
    pyStripR l = l := by
  unfold pyStripR
  cases hrev : l.reverse with
  | nil =>
    rw [List.reverse_eq_nil_iff] at hrev
    simp [hrev]
  | cons c t =>
    have hc : pyIsSpace c = false := by
      apply h
      rw [List.getLast?_eq_head?_reverse, hrev]
      rfl
    rw [List.dropWhile_cons, hc]
    simp only [Bool.false_eq_true, if_false]
    rw [← hrev, List.reverse_reverse]

/-- Both-sided strip is the identity when neither end is whitespace. -/
theorem pyStripList_eq_self (l : List Char)
    (hh : ∀ c, l.head? = some c → pyIsSpace c = false)
    (ht : ∀ c, l.getLast? = some c → pyIsSpace c = false) :
    pyStripList l = l := by
  unfold pyStripList
  rw [pyStripR_eq_self l ht]
  exact pyStripL_eq_self l hh

/-- The last element of an append with a non-empty right part. -/
theorem getLast?_append_right (A B : List Char) (hB : B ≠ []) :
    (A ++ B).getLast? = B.getLast? := by
  rw [List.getLast?_append]
  cases hB' : B.getLast? with
  | none => exact absurd (List.getLast?_eq_none_iff.mp hB') hB
  | some b => simp

/-- Chunking an all-whitespace tail flushes only the accumulator. -/
theorem wordsAux_all_ws (t : List Char) (h : ∀ c ∈ t, pyIsSpace c = true) :
    ∀ acc, wordsAux acc t = if acc.isEmpty then [] else [acc.reverse] := by
  induction t with
  | nil => intro acc; rfl
  | cons c t ih =>
    intro acc
    have hc : pyIsSpace c = true := h c (List.mem_cons_self c t)
    have ht : ∀ d ∈ t, pyIsSpace d = true := fun d hd => h d (List.mem_cons_of_mem _ hd)
    have h0 : wordsAux [] t = [] := by simpa using ih ht []
    cases acc with
    | nil => simp [wordsAux, hc, h0]
    | cons a as => simp [wordsAux, hc, h0]

/-- Appending an all-whitespace tail does not change the chunks. -/
theorem wordsAux_append_ws (t : List Char) (ht : ∀ c ∈ t, pyIsSpace c = true) :
    ∀ (l : List Char) (acc : List Char), wordsAux acc (l ++ t) = wordsAux acc l := by
  intro l
  induction l with
  | nil =>
    intro acc
    rw [List.nil_append, wordsAux_all_ws t ht acc]
    rfl
  | cons c l ih =>
    intro acc
    by_cases hc : pyIsSpace c = true
    · cases acc with
      | nil => simpa [wordsAux, hc] using ih []
      | cons a as => simpa [wordsAux, hc] using ih []
    · simp only [List.cons_append, wordsAux, hc]
      simpa [Bool.not_eq_true] using ih (c :: acc)

/-- Prepending an all-whitespace run does not change the chunks read with
an empty accumulator. -/
theorem wordsAux_leading_ws (t : List Char) (ht : ∀ c ∈ t, pyIsSpace c = true) :
    ∀ l : List Char, wordsAux [] (t ++ l) = wordsAux [] l := by
  induction t with
  | nil => intro l; rfl
  | cons c t ih =>
    intro l
    have hc : pyIsSpace c = true := ht c (List.mem_cons_self c t)
    have ht' : ∀ d ∈ t, pyIsSpace d = true := fun d hd => ht d (List.mem_cons_of_mem _ hd)
    simp only [List.cons_append, wordsAux, hc]
    simpa using ih ht' l

/-- Right-stripping does not change the whitespace-free chunks. -/
theorem wordsOf_pyStripR (l : List Char) : wordsOf (pyStripR l) = wordsOf l := by
  have hdec : l = pyStripR l ++ (l.reverse.takeWhile pyIsSpace).reverse := by
    conv_lhs => rw [← List.reverse_reverse l,
      ← List.takeWhile_append_dropWhile pyIsSpace l.reverse]
    rw [List.reverse_append]
    rfl
  have hws : ∀ c ∈ (l.reverse.takeWhile pyIsSpace).reverse, pyIsSpace c = true := by
    intro c hc
    rw [List.mem_reverse] at hc
    exact List.mem_takeWhile_imp hc
  conv_rhs => rw [hdec]
  exact (wordsAux_append_ws _ hws _ []).symm

/-- Left-stripping does not change the whitespace-free chunks. -/
theorem wordsOf_pyStripL (l : List Char) : wordsOf (pyStripL l) = wordsOf l := by
  have hdec : l = l.takeWhile pyIsSpace ++ pyStripL l :=
    (List.takeWhile_append_dropWhile pyIsSpace l).symm
  have hws : ∀ c ∈ l.takeWhile pyIsSpace, pyIsSpace c = true := by
    intro c hc
    exact List.mem_takeWhile_imp hc
  conv_rhs => rw [hdec]
  exact (wordsAux_leading_ws _ hws _).symm

/-- Chunking with a non-empty accumulator yields a non-empty chunk list. -/
theorem wordsAux_ne_nil (l : List Char) : ∀ acc, acc ≠ [] → wordsAux acc l ≠ [] := by
  induction l with
  | nil =>
    intro acc hacc
    have : acc.isEmpty = false := by
      cases acc with
      | nil => exact absurd rfl hacc
      | cons a as => rfl
    simp [wordsAux, this]
  | cons c t ih =>
    intro acc hacc
    have hne : acc.isEmpty = false := by
      cases acc with
      | nil => exact absurd rfl hacc
      | cons a as => rfl
    by_cases hc : pyIsSpace c = true
    · simp [wordsAux, hc, hne]
    · simp only [wordsAux, hc]
      simpa [Bool.not_eq_true] using ih (c :: acc) (by simp)

/-- A list whose last element is not whitespace has a chunk. -/
theorem wordsOf_ne_nil (l : List Char) (hne : l ≠ [])
    (hlast : ∀ c, l.getLast? = some c → pyIsSpace c = false) : wordsOf l ≠ [] := by
  induction l with
  | nil => exact absurd rfl hne
  | cons c t ih =>
    by_cases hc : pyIsSpace c = true
    · have htne : t ≠ [] := by
        intro h
        subst h
        exact absurd (hlast c rfl) (by simp [hc])
      have hlt : ∀ d, t.getLast? = some d → pyIsSpace d = false := by
        intro d hd
        apply hlast
        rcases List.exists_cons_of_ne_nil htne with ⟨b, u, hbu⟩
        subst hbu
        simpa using hd
      have : wordsOf (c :: t) = wordsOf t := by
        simp [wordsOf, wordsAux, hc]
      rw [this]
      exact ih htne hlt
    · simp only [wordsOf, wordsAux, hc]
      simpa [Bool.not_eq_true, hc] using wordsAux_ne_nil t [c] (by simp)

/-- Joining with a leading chunk in front of a non-empty chunk list. -/
theorem joinWords_cons (w : List Char) (ws : List (List Char)) (h : ws ≠ []) :
    joinWords (w :: ws) = w ++ ' ' :: joinWords ws := by
  cases ws with
  | nil => exact absurd rfl h
  | cons x xs => rfl

/-- Joining the chunks read with a non-empty accumulator: the accumulator
is flushed first, separated by a space exactly when the remaining input
starts with whitespace (and still contains a chunk). -/
theorem joinWords_wordsAux (l : List Char)
    (hlast : ∀ c, l.getLast? = some c → pyIsSpace c = false) :
    ∀ acc, acc ≠ [] →
      joinWords (wordsAux acc l) =
        acc.reverse ++
          (if headWs l then ' ' :: joinWords (wordsOf l) else joinWords (wordsOf l)) := by
  induction l with
  | nil =>
    intro acc hacc
    have hne : acc.isEmpty = false := by
      cases acc with
      | nil => exact absurd rfl hacc
      | cons a as => rfl
    simp [wordsAux, hne, headWs, wordsOf, joinWords]
  | cons c t ih =>
    intro acc hacc
    have hne : acc.isEmpty = false := by
      cases acc with
      | nil => exact absurd rfl hacc
      | cons a as => rfl
    by_cases hc : pyIsSpace c = true
    · have htne : t ≠ [] := by
        intro h
        subst h
        exact absurd (hlast c rfl) (by simp [hc])
      have hlt : ∀ d, t.getLast? = some d → pyIsSpace d = false := by
        intro d hd
        apply hlast
        rcases List.exists_cons_of_ne_nil htne with ⟨b, u, hbu⟩
        subst hbu
        simpa using hd
      have hwt : wordsOf t ≠ [] := wordsOf_ne_nil t htne hlt
      have h1 : wordsAux acc (c :: t) = acc.reverse :: wordsAux [] t := by
        simp [wordsAux, hc, hne]
      have h2 : wordsOf (c :: t) = wordsOf t := by
        simp [wordsOf, wordsAux, hc]
      rw [h1, show wordsAux ([] : List Char) t = wordsOf t from rfl,
          joinWords_cons _ _ hwt, h2]
      simp [headWs, hc]
  -- non-whitespace head: the accumulator keeps growing
    · have hlt : ∀ d, t.getLast? = some d → pyIsSpace d = false := by
        intro d hd
        apply hlast
        cases t with
        | nil => exact absurd hd (by simp)
        | cons b u => simpa using hd
      have h1 : wordsAux acc (c :: t) = wordsAux (c :: acc) t := by
        simp [wordsAux, hc]
      have h2 : wordsOf (c :: t) = wordsAux [c] t := by
        simp [wordsOf, wordsAux, hc]
      rw [h1, ih hlt (c :: acc) (by simp), h2, ih hlt [c] (by simp)]
      simp [headWs, hc, List.append_assoc]

/-- The head of a `dropWhile` fails the predicate. -/
theorem head_dropWhile_false (p : Char → Bool) (l : List Char) (c : Char)
    (h : (l.dropWhile p).head? = some c) : p c = false := by
  induction l with
  | nil => simp at h
  | cons a t ih =>
    rw [List.dropWhile_cons] at h
    by_cases hp : p a = true
    · rw [if_pos hp] at h
      exact ih h
    · rw [if_neg hp] at h
      simp at h
      subst h
      simpa [Bool.not_eq_true] using hp

/-- The last element of a right-stripped list is not whitespace. -/
theorem pyStripR_getLast_not_ws (l : List Char) (c : Char)
    (h : (pyStripR l).getLast? = some c) : pyIsSpace c = false := by
  unfold pyStripR at h
  rw [List.getLast?_eq_head?_reverse, List.reverse_reverse] at h
  exact head_dropWhile_false pyIsSpace l.reverse c h

/-- Collapse of a list with no trailing whitespace: the chunks joined by
single spaces, with one leading space when the list starts with
whitespace. -/
theorem collapseWs_eq_join (l : List Char)
    (hlast : ∀ c, l.getLast? = some c → pyIsSpace c = false) :
    collapseWs l =
      if headWs l then ' ' :: joinWords (wordsOf l) else joinWords (wordsOf l) := by
  induction l with
  | nil => simp [collapseWs, headWs, wordsOf, wordsAux, joinWords]
  | cons c t ih =>
    cases t with
    | nil =>
      have hc : pyIsSpace c = false := hlast c rfl
      simp [collapseWs, hc, headWs, wordsOf, wordsAux, joinWords]
    | cons d u =>
      have hlt : ∀ e, (d :: u).getLast? = some e → pyIsSpace e = false := by
        intro e he
        apply hlast
        simpa using he
      have iht := ih hlt
      by_cases hc : pyIsSpace c = true
      · have h2 : wordsOf (c :: d :: u) = wordsOf (d :: u) := by
          simp [wordsOf, wordsAux, hc]
        by_cases hd : pyIsSpace d = true
        · have h1 : collapseWs (c :: d :: u) = collapseWs (d :: u) := by
            simp [collapseWs, hc, hd]
          rw [h1, iht]
          simp [headWs, hc, hd, h2]
        · have h1 : collapseWs (c :: d :: u) = ' ' :: collapseWs (d :: u) := by
            simp [collapseWs, hc, hd]
          rw [h1, iht]
          simp [headWs, hc, hd, h2]
      · have h1 : collapseWs (c :: d :: u) = c :: collapseWs (d :: u) := by
          simp [collapseWs, hc]
        have h2 : wordsOf (c :: d :: u) = wordsAux [c] (d :: u) := by
          simp [wordsOf, wordsAux, hc]
        have h3 := joinWords_wordsAux (d :: u) hlt [c] (by simp)
        rw [h1, iht]
        simp only [headWs, hc, h2, h3]
        simp [headWs]

/-- The normalisation performed by `sanitize_text` (strip, then collapse
whitespace runs) equals the whitespace-free chunks of the input joined by
single spaces. -/
theorem collapse_strip_eq_join (l : List Char) :
    collapseWs (pyStripList l) = joinWords (wordsOf l) := by
  have hsform : pyStripList l = (pyStripR l).dropWhile pyIsSpace := rfl
  have hlast : ∀ c, (pyStripList l).getLast? = some c → pyIsSpace c = false := by
    intro c hc
    have hsne : pyStripList l ≠ [] := by
      intro h
      rw [h] at hc
      simp at hc
    have hdec : pyStripR l = (pyStripR l).takeWhile pyIsSpace ++ pyStripList l := by
      conv_lhs => rw [← List.takeWhile_append_dropWhile pyIsSpace (pyStripR l)]
      rw [hsform]
    have hR : (pyStripR l).getLast? = some c := by
      rw [hdec, getLast?_append_right _ _ hsne]
      exact hc
    exact pyStripR_getLast_not_ws l c hR
  have hhead : headWs (pyStripList l) = false := by
    rcases hs : pyStripList l with _ | ⟨c, t⟩
    · rfl
    · have hhd : ((pyStripR l).dropWhile pyIsSpace).head? = some c := by
        rw [← hsform, hs]
        rfl
      have := head_dropWhile_false pyIsSpace (pyStripR l) c hhd
      simpa [headWs] using this
  rw [collapseWs_eq_join _ hlast, hhead]
  simp only [Bool.false_eq_true, if_false]
  have : wordsOf (pyStripList l) = wordsOf l := by
    unfold pyStripList
    rw [wordsOf_pyStripL, wordsOf_pyStripR]
  rw [this]

/-- A list is a Boolean suffix of anything followed by itself. -/
theorem isSuffixOf_append_self (l₁ l₂ : List Char) : l₂.isSuffixOf (l₁ ++ l₂) = true := by
  rw [List.isSuffixOf, List.reverse_append]
  exact isPrefixOf_append_self _ _

/-- C4 counterexample: the claim fails on the code as stated.  For input
`"a\n\n\n\nb"` (length 6) with `max_len = 5` the input length exceeds
`max_len`, yet the output is `"a b"` with no `"..."` marker (truncation is
decided on the normalised text, not the input); for `max_len = 2` the
output of `sanitize_text "abcdef"` has length 8 > 2 (the Python slice
`[:max_len - 3]` is negative); and a leading whitespace run is removed
rather than collapsed to a space. -/
theorem c4_sanitize_text_cex :
    (("a\n\n\n\nb" : String).length = 6 ∧
      sanitize_text "a\n\n\n\nb" 5 = "a b" ∧
      "...".data.isSuffixOf (sanitize_text "a\n\n\n\nb" 5).data = false) ∧
    (sanitize_text "abcdef" 2).length = 8 ∧
    sanitize_text "  a" 10 = "a" := by
  refine ⟨⟨rfl, ?_, by decide⟩, rfl, ?_⟩
  · apply String.ext
    decide
  · apply String.ext
    decide

/-- C4 (amended): for `max_len ≥ 3`, `sanitize_text` returns a string of
length at most `max_len`; whenever the normalised (stripped,
whitespace-collapsed) text is longer than `max_len`, the output ends with
the truncation marker `"..."`; and when it is not truncated the output is
exactly the input's whitespace-free chunks joined by single spaces (every
interior whitespace run collapsed to one space, leading and trailing runs
removed). -/
theorem c4_sanitize_text_amended (text : String) (max_len : Nat) (h3 : 3 ≤ max_len) :
    (sanitize_text text max_len).length ≤ max_len ∧
    (max_len < (collapseWs (pyStripList text.data)).length →
      "...".data.isSuffixOf (sanitize_text text max_len).data = true) ∧
    ((collapseWs (pyStripList text.data)).length ≤ max_len →
      sanitize_text text max_len = ⟨joinWords (wordsOf text.data)⟩) := by
  by_cases hempty : text = ""
  · subst hempty
    have hval : sanitize_text "" max_len = "" := by
      rw [sanitize_text]
      simp
    refine ⟨by rw [hval]; simp, ?_, ?_⟩
    · intro h
      rw [show (collapseWs (pyStripList ("" : String).data)).length = 0 from rfl] at h
      omega
    · intro _
      rw [hval]
      apply String.ext
      decide
  · have htoNat : ((max_len : Int) - 3).toNat = max_len - 3 := by omega
    have hslice : pySliceTo (collapseWs (pyStripList text.data)) ((max_len : Int) - 3) =
        (collapseWs (pyStripList text.data)).take (max_len - 3) := by
      rw [pySliceTo, if_pos (by omega : (0 : Int) ≤ (max_len : Int) - 3), htoNat]
    refine ⟨?_, ?_, ?_⟩
    · rw [sanitize_text, if_neg hempty]
      by_cases htr : max_len < (collapseWs (pyStripList text.data)).length
      · rw [if_pos htr]
        have : ((pySliceTo (collapseWs (pyStripList text.data)) ((max_len : Int) - 3) ++
            "...".data) : List Char).length =
            (min (max_len - 3) (collapseWs (pyStripList text.data)).length) + 3 := by
          rw [hslice]
          simp [List.length_append, List.length_take]
        rw [String.length_mk, this]
        omega
      · rw [if_neg htr, String.length_mk]
        omega
    · intro htr
      rw [sanitize_text, if_neg hempty, if_pos htr]
      exact isSuffixOf_append_self _ _
    · intro hle
      rw [sanitize_text, if_neg hempty, if_neg (by omega), collapse_strip_eq_join]

/-- C4 witness: with `max_len = 5` the overlong input `"aaa bbb ccc"`
normalises to itself, is truncated to length 5, and ends with `"..."`;
the short input `" a  b "` collapses to `"a b"`. -/
theorem c4_sanitize_text_amended_witness :
    (3 ≤ 5 ∧ (sanitize_text "aaa bbb ccc" 5).length ≤ 5 ∧
      "...".data.isSuffixOf (sanitize_text "aaa bbb ccc" 5).data = true) ∧
    sanitize_text " a  b " 5 = "a b" := by
  have h1 := c4_sanitize_text_amended "aaa bbb ccc" 5 (by norm_num)
  have h2 := c4_sanitize_text_amended " a  b " 5 (by norm_num)
  refine ⟨⟨by norm_num, h1.1, h1.2.1 (by decide)⟩, ?_⟩
  have := h2.2.2 (by decide)
  rw [this]
  apply String.ext
  decide

/-- Setting a key then looking it up yields the value. -/
theorem lookupKey_setKey_same (st : List (String × Value)) (k : String) (v : Value) :
    lookupKey (setKey st k v) k = some v := by
  induction st with
  | nil => simp [setKey, lookupKey]
  | cons kv rest ih =>
    by_cases h : kv.1 = k
    · simp [setKey, h, lookupKey]
    · simp [setKey, h, lookupKey, ih]

/-- Setting one key leaves lookups of another key unchanged. -/
theorem lookupKey_setKey_ne (st : List (String × Value)) (k k' : String) (v : Value)
    (h : ¬k = k') : lookupKey (setKey st k v) k' = lookupKey st k' := by
  induction st with
  | nil => simp [setKey, lookupKey, h]
  | cons kv rest ih =>
    by_cases hk : kv.1 = k
    · simp [setKey, hk, lookupKey, h]
    · simp [setKey, hk, lookupKey, ih]

/-- The result dictionary of a completed run. -/
theorem finishRun_result (ag : Agents) (hf ts : String) (ks : List String)
    (st : List (String × Value)) :
    (finishRun ag hf ts ks st).result =
      [("final_recommendations", .pStr (reportTextOf ag hf st)),
       ("recommendations_path", .pStr ("outputs/recommendations_" ++ ts ++ ".txt")),
       ("report", .pStr (reportTextOf ag hf st)),
       ("report_path", .pStr ("outputs/report_" ++ ts ++ ".txt")),
       ("keywords", .pList ks)] := rfl

/-- The state handed to the reviewer by a completed run. -/
theorem finishRun_reviewerArg (ag : Agents) (hf ts : String) (ks : List String)
    (st : List (String × Value)) :
    (finishRun ag hf ts ks st).reviewerArg = some (reviewerState hf st) := rfl

/-- Key lookups on the result dictionary of a completed run. -/
theorem finishRun_lookup_final (ag : Agents) (hf ts : String) (ks : List String)
    (st : List (String × Value)) :
    lookupKeyP (finishRun ag hf ts ks st).result "final_recommendations" =
      some (.pStr (reportTextOf ag hf st)) := rfl

/-- The `report` entry of a completed run's result dictionary. -/
theorem finishRun_lookup_report (ag : Agents) (hf ts : String) (ks : List String)
    (st : List (String × Value)) :
    lookupKeyP (finishRun ag hf ts ks st).result "report" =
      some (.pStr (reportTextOf ag hf st)) := rfl

/-- A completed run's result dictionary has no `error` key. -/
theorem finishRun_lookup_error (ag : Agents) (hf ts : String) (ks : List String)
    (st : List (String × Value)) :
    lookupKeyP (finishRun ag hf ts ks st).result "error" = none := rfl

/-- An aborted run's result dictionary has no `report` key. -/
theorem abortResult_lookup_report (ks : List String) (st : List (String × Value)) :
    lookupKeyP (abortResult ks st).result "report" = none := rfl

/-- An aborted run's result dictionary has no `error` key. -/
theorem abortResult_lookup_error (ks : List String) (st : List (String × Value)) :
    lookupKeyP (abortResult ks st).result "error" = none := rfl

/-- The fetch-failure result carries the error message. -/
theorem fetchErrorResult_lookup_error (e : String) :
    lookupKeyP (fetchErrorResult e).result "error" =
      some (.pStr ("Error fetching README: " ++ e)) := rfl

/-- The empty-README result carries the error message. -/
theorem emptyReadmeResult_lookup_error :
    lookupKeyP emptyReadmeResult.result "error" =
      some (.pStr "README content is empty or could not be retrieved.") := rfl


/-- C9: `validate_repo_url` accepts every canonical
`https://github.com/owner/repo` URL (owner and repo non-empty segments
free of slashes and whitespace) and rejects the empty string, every URL
whose stripped form does not start with the `https://github.com/` host
prefix, and every URL missing the repository segment. -/
theorem c9_validate_repo_url :
    (∀ owner repo : String, owner ≠ "" → repo ≠ "" →
      (∀ c ∈ owner.data, ¬c = '/' ∧ pyIsSpace c = false) →
      (∀ c ∈ repo.data, ¬c = '/' ∧ pyIsSpace c = false) →
      validate_repo_url ("https://github.com/" ++ owner ++ "/" ++ repo) = true) ∧
    validate_repo_url "" = false ∧
    (∀ url : String, "https://github.com/".data.isPrefixOf (pyStripList url.data) = false →
      validate_repo_url url = false) ∧
    (∀ owner : String, (∀ c ∈ owner.data, ¬c = '/' ∧ pyIsSpace c = false) →
      validate_repo_url ("https://github.com/" ++ owner) = false) := by
  refine ⟨?_, by decide, ?_, ?_⟩
  · intro owner repo howner hrepo hoc hrc
    have hod : owner.data ≠ [] := fun h => howner (String.ext h)
    have hrd : repo.data ≠ [] := fun h => hrepo (String.ext h)
    have hdata : ("https://github.com/" ++ owner ++ "/" ++ repo).data =
        "https://github.com/".data ++ (owner.data ++ '/' :: repo.data) := by
      simp [String.data_append]
    have hne : ("https://github.com/" ++ owner ++ "/" ++ repo) ≠ "" := by
      intro h
      rw [String.ext_iff, hdata] at h
      simp at h
    have hstrip : pyStripList ("https://github.com/" ++ owner ++ "/" ++ repo).data =
        ("https://github.com/" ++ owner ++ "/" ++ repo).data := by
      apply pyStripList_eq_self
      · intro c hc
        rw [hdata] at hc
        simp at hc
        subst hc
        rfl
      · intro c hc
        rw [hdata, getLast?_append_right _ _ (by simp),
            getLast?_append_right owner.data ('/' :: repo.data) (by simp),
            show ('/' :: repo.data) = ['/'] ++ repo.data from rfl,
            getLast?_append_right _ _ hrd] at hc
        exact (hrc c (List.mem_of_mem_getLast? (by simp [hc]))).2
    rw [validate_repo_url, if_neg hne, hstrip, hdata]
    dsimp only
    have hpre : "https://github.com/".data.isPrefixOf
        ("https://github.com/".data ++ (owner.data ++ '/' :: repo.data)) = true :=
      isPrefixOf_append_self _ _
    rw [hpre]
    simp only [if_true]
    have hdrop : List.drop 19 ("https://github.com/".data ++ (owner.data ++ '/' :: repo.data)) =
        owner.data ++ '/' :: repo.data := by
      rw [show (19 : Nat) = ("https://github.com/".data).length from rfl, List.drop_left]
    rw [hdrop]
    have hsplit : splitChar '/' (owner.data ++ '/' :: repo.data) =
        [owner.data, repo.data] := by
      rw [splitChar_append '/' _ _ (fun m => (hoc _ m).1 rfl),
          splitChar_of_not_mem '/' _ (fun m => (hrc _ m).1 rfl)]
    rw [hsplit]
    simp [List.isEmpty_eq_true, hod, hrd]
  · intro url hpre
    rw [validate_repo_url]
    by_cases hu : url = ""
    · simp [hu]
    · rw [if_neg hu]
      dsimp only
      rw [hpre]
      simp
  · intro owner hoc
    have hdata : ("https://github.com/" ++ owner).data =
        "https://github.com/".data ++ owner.data := by
      simp [String.data_append]
    have hne : ("https://github.com/" ++ owner) ≠ "" := by
      intro h
      rw [String.ext_iff, hdata] at h
      simp at h
    have hstrip : pyStripList ("https://github.com/" ++ owner).data =
        ("https://github.com/" ++ owner).data := by
      apply pyStripList_eq_self
      · intro c hc
        rw [hdata] at hc
        simp at hc
        subst hc
        rfl
      · intro c hc
        rw [hdata, List.getLast?_append] at hc
        rcases ho : owner.data.getLast? with _ | d
        · rw [ho] at hc
          simp at hc
          subst hc
          rfl
        · rw [ho] at hc
          simp at hc
          subst hc
          exact (hoc d (List.mem_of_mem_getLast? (by simp [ho]))).2
    rw [validate_repo_url, if_neg hne, hstrip, hdata]
    dsimp only
    rw [isPrefixOf_append_self]
    simp only [if_true]
    have hdrop : List.drop 19 ("https://github.com/".data ++ owner.data) = owner.data := by
      rw [show (19 : Nat) = ("https://github.com/".data).length from rfl, List.drop_left]
    rw [hdrop]
    rw [splitChar_of_not_mem '/' _ (fun m => (hoc _ m).1 rfl)]

/-- C9 witness: the canonical URL is accepted; a URL missing the repo
segment and a wrong-host URL are rejected. -/
theorem c9_validate_repo_url_witness :
    validate_repo_url "https://github.com/owner/repo" = true ∧
    validate_repo_url "https://github.com/owner" = false ∧
    validate_repo_url "https://google.com/owner/repo" = false :=
  ⟨c9_validate_repo_url.1 "owner" "repo" (by decide) (by decide) (by decide) (by decide),
   c9_validate_repo_url.2.2.2 "owner" (by decide),
   c9_validate_repo_url.2.2.1 "https://google.com/owner/repo" (by decide)⟩

/-- C1 counterexample: the claim fails on the code for whitespace-only
feedback.  `" "` strips to the empty string, yet the run appends the
labelled trailing section `"\n\n[Human feedback]\n "` to the reviewer
output `"R"` (Python truthiness `if human_feedback:` does not strip),
whereas the genuinely empty feedback leaves the report untouched. -/
theorem c1_feedback_cex :
    pyStrip " " = "" ∧
    lookupKeyP (runReviewCore (.ok "readme") " " false .yes .yes .yes demoAgents "0").result
        "final_recommendations" = some (.pStr "R\n\n[Human feedback]\n ") ∧
    lookupKeyP (runReviewCore (.ok "readme") "" false .yes .yes .yes demoAgents "0").result
        "final_recommendations" = some (.pStr "R") := by
  refine ⟨by decide, by decide, by decide⟩

/-- C1 (amended): for every run reaching the reviewer stage, if the human
feedback string is non-empty (even when whitespace-only) the final report
(both the `final_recommendations` and `report` entries) is the
reviewer-derived text with the feedback appended verbatim as the labelled
trailing section; if the feedback is the empty string, nothing is
appended and the report is exactly the reviewer-derived text. -/
theorem c1_feedback_trailing_section (fetch : Except String String) (readme hf : String)
    (interactive : Bool) (d1 d2 d3 : Decision) (ag : Agents) (ts : String)
    (e1 e2 e3 : Option String)
    (hfetch : fetch = .ok readme) (hne : pyStrip readme ≠ "")
    (hd1 : ckDecision interactive d1 = .go e1)
    (hd2 : ckDecision interactive d2 = .go e2)
    (hd3 : ckDecision interactive d3 = .go e3) :
    lookupKeyP (runReviewCore fetch hf interactive d1 d2 d3 ag ts).result
        "final_recommendations" =
      ((runReviewCore fetch hf interactive d1 d2 d3 ag ts).reviewerArg.map
        (fun st' => Prim.pStr
          (if hf = "" then reviewerReport ag st'
           else reviewerReport ag st' ++ "\n\n[Human feedback]\n" ++ hf))) ∧
    lookupKeyP (runReviewCore fetch hf interactive d1 d2 d3 ag ts).result "report" =
      ((runReviewCore fetch hf interactive d1 d2 d3 ag ts).reviewerArg.map
        (fun st' => Prim.pStr
          (if hf = "" then reviewerReport ag st'
           else reviewerReport ag st' ++ "\n\n[Human feedback]\n" ++ hf))) := by
  subst hfetch
  rcases e1 with _ | t1 <;> rcases e2 with _ | t2 <;> rcases e3 with _ | t3 <;>
    simp only [runReviewCore, hd1, hd2, hd3, hne, if_false, ite_false] <;>
    simp only [finishRun_lookup_final, finishRun_lookup_report, finishRun_reviewerArg,
      Option.map_some] <;>
    by_cases hhf : hf = "" <;>
    simp [reportTextOf, hhf]

/-- C1 witness: a non-interactive run with feedback `"note"` ends its
report with the labelled section; the hypotheses of the amended theorem
are discharged at a concrete run. -/
theorem c1_feedback_trailing_section_witness :
    lookupKeyP (runReviewCore (.ok "readme") "note" false .yes .yes .yes demoAgents "0").result
        "final_recommendations" = some (.pStr "R\n\n[Human feedback]\nnote") ∧
    lookupKeyP (runReviewCore (.ok "readme") "note" false .yes .yes .yes demoAgents "0").result
        "report" = some (.pStr "R\n\n[Human feedback]\nnote") := by
  have h := c1_feedback_trailing_section (.ok "readme") "readme" "note" false .yes .yes .yes
    demoAgents "0" none none none rfl (by decide) rfl rfl rfl
  exact ⟨by rw [h.1]; rfl, by rw [h.2]; rfl⟩

/-- C2 counterexample: the claim fails on the code.  With feedback `"x"`
the state handed to the reviewer differs from the state handed to it when
no feedback is supplied: `state.set("human_feedback", ...)` runs before
`reviewer(state.to_dict())`, so the feedback is merged into the
LLM-facing state. -/
theorem c2_reviewer_state_cex :
    (runReviewCore (.ok "readme") "x" false .yes .yes .yes demoAgents "0").reviewerArg ≠
      (runReviewCore (.ok "readme") "" false .yes .yes .yes demoAgents "0").reviewerArg := by
  decide

/-- C2 (amended): for every run reaching the reviewer stage, the state
mapping passed to the reviewer contains the human feedback under the key
`human_feedback` whenever the feedback is non-empty (it is merged into
the LLM-facing state before the reviewer runs, in addition to being
appended to the final report); the key is absent exactly when the
feedback is empty. -/
theorem c2_feedback_merged_into_reviewer_state (fetch : Except String String)
    (readme hf : String) (interactive : Bool) (d1 d2 d3 : Decision) (ag : Agents)
    (ts : String) (e1 e2 e3 : Option String)
    (hfetch : fetch = .ok readme) (hne : pyStrip readme ≠ "")
    (hd1 : ckDecision interactive d1 = .go e1)
    (hd2 : ckDecision interactive d2 = .go e2)
    (hd3 : ckDecision interactive d3 = .go e3) :
    (runReviewCore fetch hf interactive d1 d2 d3 ag ts).reviewerArg.map
        (fun st' => lookupKey st' "human_feedback") =
      some (if hf = "" then none else some (.vStr hf)) := by
  subst hfetch
  rcases e1 with _ | t1 <;> rcases e2 with _ | t2 <;> rcases e3 with _ | t3 <;>
    simp only [runReviewCore, hd1, hd2, hd3, hne, if_false, ite_false] <;>
    simp only [finishRun_reviewerArg, Option.map_some] <;>
    by_cases hhf : hf = "" <;>
    simp only [reviewerState, hhf, ne_eq, not_true, not_false_iff, if_true, if_false,
      ite_true, ite_false] <;>
    first
      | exact congrArg some (lookupKey_setKey_same _ _ _)
      | simp [lookupKey_setKey_ne, lookupKey]

/-- C2 witness: in a concrete run with feedback `"x"`, the reviewer-facing
state carries `human_feedback = "x"`; with empty feedback the key is
absent. -/
theorem c2_feedback_merged_into_reviewer_state_witness :
    (runReviewCore (.ok "readme") "x" false .yes .yes .yes demoAgents "0").reviewerArg.map
        (fun st' => lookupKey st' "human_feedback") = some (some (.vStr "x")) ∧
    (runReviewCore (.ok "readme") "" false .yes .yes .yes demoAgents "0").reviewerArg.map
        (fun st' => lookupKey st' "human_feedback") = some none := by
  have h1 := c2_feedback_merged_into_reviewer_state (.ok "readme") "readme" "x" false
    .yes .yes .yes demoAgents "0" none none none rfl (by decide) rfl rfl rfl
  have h2 := c2_feedback_merged_into_reviewer_state (.ok "readme") "readme" "" false
    .yes .yes .yes demoAgents "0" none none none rfl (by decide) rfl rfl rfl
  exact ⟨by rw [h1]; rfl, by rw [h2]; rfl⟩

/-- C7: aborting at the first checkpoint (interactive mode, answer `no`)
returns exactly `{"final_recommendations": "", "keywords": []}` — no
`error` key — and writes no output files; a fetch-failure run instead
carries an `error` key with the message, so the two outcomes are
distinguishable. -/
theorem c7_abort_vs_error (readme hf : String) (d2 d3 : Decision) (ag : Agents) (ts : String)
    (hne : pyStrip readme ≠ "") :
    ((runReviewCore (.ok readme) hf true .no d2 d3 ag ts).result =
        [("final_recommendations", .pStr ""), ("keywords", .pList [])] ∧
      (runReviewCore (.ok readme) hf true .no d2 d3 ag ts).files = [] ∧
      lookupKeyP (runReviewCore (.ok readme) hf true .no d2 d3 ag ts).result "error" = none) ∧
    (∀ (e hfp : String) (ia : Bool) (d1p d2p d3p : Decision) (agp : Agents) (tsp : String),
      lookupKeyP (runReviewCore (.error e) hfp ia d1p d2p d3p agp tsp).result "error" =
        some (.pStr ("Error fetching README: " ++ e))) := by
  constructor
  · simp only [runReviewCore, hne, if_false, ite_false, ckDecision]
    exact ⟨rfl, rfl, rfl⟩
  · intro e hfp ia d1p d2p d3p agp tsp
    exact fetchErrorResult_lookup_error e

/-- C7 witness: a concrete aborted run and a concrete failed run,
instantiating the theorem. -/
theorem c7_abort_vs_error_witness :
    ((runReviewCore (.ok "readme") "" true .no .yes .yes demoAgents "0").result =
        [("final_recommendations", .pStr ""), ("keywords", .pList [])] ∧
      (runReviewCore (.ok "readme") "" true .no .yes .yes demoAgents "0").files = [] ∧
      lookupKeyP (runReviewCore (.ok "readme") "" true .no .yes .yes demoAgents "0").result
        "error" = none) ∧
    lookupKeyP (runReviewCore (.error "boom") "" false .yes .yes .yes demoAgents "0").result
        "error" = some (.pStr ("Error fetching README: " ++ "boom")) := by
  have h := c7_abort_vs_error "readme" "" .yes .yes demoAgents "0" (by decide)
  exact ⟨h.1, h.2 "boom" "" false .yes .yes .yes demoAgents "0"⟩

/-- C8: the programmatic entry point `run_review_workflow` always runs the
core non-interactively, and a non-interactive run (any checkpoint
answers) is identical — result dictionary, output files, reviewer input
and final state — to an interactive run answering `yes` (proceed) at
every checkpoint. -/
theorem c8_noninteractive_equals_all_proceed (fetch : Except String String) (hf : String)
    (d1 d2 d3 : Decision) (ag : Agents) (ts : String) :
    run_review_workflow fetch hf ag ts = runReviewCore fetch hf true .yes .yes .yes ag ts ∧
    runReviewCore fetch hf false d1 d2 d3 ag ts =
      runReviewCore fetch hf true .yes .yes .yes ag ts := by
  have key : ∀ d1p d2p d3p : Decision,
      runReviewCore fetch hf false d1p d2p d3p ag ts =
        runReviewCore fetch hf true .yes .yes .yes ag ts := by
    intro d1p d2p d3p
    cases fetch with
    | error e => rfl
    | ok readme =>
      by_cases hemp : pyStrip readme = ""
      · simp only [runReviewCore, hemp, if_true, ite_true]
      · simp [runReviewCore, hemp, ckDecision]
  exact ⟨key .yes .yes .yes, key d1 d2 d3⟩

/-- C10: whenever a run's result dictionary has no `error` key and does
have a `report` entry (it completed: neither failed nor aborted), the
`final_recommendations` entry is that same value — the final report text
including any appended human-feedback section. -/
theorem c10_final_recommendations_eq_report (fetch : Except String String) (hf : String)
    (interactive : Bool) (d1 d2 d3 : Decision) (ag : Agents) (ts : String) (v : Prim)
    (herr : lookupKeyP (runReviewCore fetch hf interactive d1 d2 d3 ag ts).result "error" =
      none)
    (hrep : lookupKeyP (runReviewCore fetch hf interactive d1 d2 d3 ag ts).result "report" =
      some v) :
    lookupKeyP (runReviewCore fetch hf interactive d1 d2 d3 ag ts).result
      "final_recommendations" = some v := by
  cases fetch with
  | error e =>
    rw [show runReviewCore (.error e) hf interactive d1 d2 d3 ag ts = fetchErrorResult e
      from rfl, fetchErrorResult_lookup_error] at herr
    exact Option.noConfusion herr
  | ok readme =>
    by_cases hemp : pyStrip readme = ""
    · simp only [runReviewCore, hemp, if_true, ite_true] at herr
      rw [emptyReadmeResult_lookup_error] at herr
      exact Option.noConfusion herr
    · rcases hd1 : ckDecision interactive d1 with _ | e1
      · simp only [runReviewCore, hd1, hemp, if_false, ite_false] at hrep
        rw [abortResult_lookup_report] at hrep
        exact Option.noConfusion hrep
      · rcases hd2 : ckDecision interactive d2 with _ | e2
        · simp only [runReviewCore, hd1, hd2, hemp, if_false, ite_false] at hrep
          rcases e1 with _ | t1 <;>
            (rw [abortResult_lookup_report] at hrep; exact Option.noConfusion hrep)
        · rcases hd3 : ckDecision interactive d3 with _ | e3
          · simp only [runReviewCore, hd1, hd2, hd3, hemp, if_false, ite_false] at hrep
            rcases e1 with _ | t1 <;> rcases e2 with _ | t2 <;>
              (rw [abortResult_lookup_report] at hrep; exact Option.noConfusion hrep)
          · rcases e1 with _ | t1 <;> rcases e2 with _ | t2 <;> rcases e3 with _ | t3 <;>
              simp only [runReviewCore, hd1, hd2, hd3, hemp, if_false, ite_false]
                at hrep ⊢ <;>
              rw [finishRun_lookup_report] at hrep <;>
              rw [finishRun_lookup_final, hrep]

/-- C10 witness: a concrete completed run, with both hypotheses
discharged by evaluation. -/
theorem c10_final_recommendations_eq_report_witness :
    lookupKeyP (runReviewCore (.ok "readme") "" false .yes .yes .yes demoAgents "0").result
      "final_recommendations" = some (.pStr "R") :=
  c10_final_recommendations_eq_report (.ok "readme") "" false .yes .yes .yes demoAgents "0"
    (.pStr "R") rfl rfl

end MAS
